import Mathlib

/-!
Verification development for the backtesting engine in src/strategies.py
(function run_backtest).  The engine is embedded shallowly: Python floats
become rationals, pandas NaN becomes Option.none, the mutable per-day state
becomes an explicit SimState threaded through a fold over the ordered day
list.  Python int(x) (truncation toward zero) is pyInt, Python round(x)
(banker rounding, round-half-to-even) is roundHalfEven.

The constants FUTURES_CONFIG margin_per_contract and point_value come from
config.py, which is not part of the sources here; they are modelled as
fields of the configuration record, since run_backtest only reads them as
opaque per-run constants.
-/

/-- A trading date as the engine observes it: the calendar month (used for
the month-boundary rebalance test at line 116) and a serial day number
(so that the pandas date subtraction at line 311 is serial difference).
Dividend lookup keys on the whole date, mirroring the date-string key. -/
structure TradeDate where
  month : ℤ
  serial : ℤ
deriving DecidableEq, Repr

/-- Strategy variants matched at lines 98-113; the catch-all string case is
the constructor other. -/
inductive Strategy where
  | alwaysLong
  | maLong
  | maTrend
  | etfOnly
  | other
deriving DecidableEq, Repr

/-- Allocation modes matched at lines 132-181; any unrecognized string is
the constructor other (the fallback branch at lines 176-181). -/
inductive AllocMode where
  | dynamic
  | fixed
  | futuresOnly
  | other
deriving DecidableEq, Repr

/-- Instrument kind of a trade-log row (類型 futures vs ETF). -/
inductive TradeKind where
  | futures
  | etf
deriving DecidableEq, Repr

/-- Action label of a trade-log row: 做多 openLong, 減倉 reduce, 平倉 close,
做空 openShort, 買入 buy, 賣出 sell. -/
inductive TradeAction where
  | openLong
  | reduce
  | close
  | openShort
  | buy
  | sell
deriving DecidableEq, Repr

/-- One input row of df_data: the date, the TAIEX index level, and the value
of the ETF price column for this row (none models NaN). -/
structure DayRow where
  date : TradeDate
  taiex : ℚ
  etf : Option ℚ
deriving DecidableEq, Repr

/-- The configuration bundle of run_backtest.  etfCode is the literal ETF
selector string (the engine only ever compares it with "none");
hasEtfColumn models the check etf_code in df.columns at line 74.
marginPerContract and pointValue are FUTURES_CONFIG margin_per_contract and
point_value from config.py (not in src; opaque per-run constants).
riskMult is the parameter risk_ratio of the source. -/
structure Config where
  strategy : Strategy
  etfCode : String
  hasEtfColumn : Bool
  etfDividends : List (TradeDate × ℚ)
  initialCapital : ℚ
  leverage : ℚ
  maPeriod : ℤ
  riskMult : ℚ
  dividendYield : ℚ
  allocationMode : AllocMode
  futuresPct : ℚ
  etfPct : ℚ
  marginPerContract : ℚ
  pointValue : ℚ
deriving DecidableEq, Repr

/-- One trade-log entry (lines 203-212, 244-254, 270-280).  Futures rows
have tradeValue 0 (the source futures row has no 交易金額 field); for ETF
rows qtyDelta/qtyAfter are the share fields 股數變動/調整後股數. -/
structure TradeRecord where
  date : TradeDate
  kind : TradeKind
  action : TradeAction
  qtyDelta : ℤ
  qtyAfter : ℤ
  price : ℚ
  tradeValue : ℚ
  fee : ℚ
  equityAfter : ℚ
deriving DecidableEq, Repr

/-- The mutable state of the simulation loop (lines 58-68), plus the two
accumulators equity_arr and trade_log kept newest-first (reversed at the
end of the run). -/
structure SimState where
  cash : ℚ
  contracts : ℤ
  etfShares : ℤ
  lastValidEtfValue : ℚ
  lastMonth : ℤ
  equityArr : List ℚ
  tradeLog : List TradeRecord
  totalCost : ℚ
  totalDividend : ℚ
deriving DecidableEq, Repr

/-- The summary statistics dict (lines 321-332).  The source stores cagr, a
real power; years is the intermediate value of line 312 from which cagr is
derived (see cagr below), kept here so the statistics stay computable. -/
structure Stats where
  initialCapital : ℚ
  finalEquity : ℚ
  totalReturn : ℚ
  years : ℚ
  mdd : ℚ
  totalCost : ℚ
  totalDividend : ℚ
  allocationMode : AllocMode
  futuresPct : ℚ
  etfPct : ℚ
deriving DecidableEq, Repr

/-- The three outputs of run_backtest: the augmented table (each input row
with its derived MA value and Equity value), the trade ledger, and the
statistics record. -/
structure BacktestResult where
  table : List (DayRow × Option ℚ × ℚ)
  trades : List TradeRecord
  stats : Stats
deriving DecidableEq, Repr

/-- Python int(x) on a float: truncation toward zero. -/
def pyInt (q : ℚ) : ℤ :=
  if 0 ≤ q then ⌊q⌋ else ⌈q⌉

/-- Python round(x) with no digits: round half to even (banker rounding). -/
def roundHalfEven (q : ℚ) : ℤ :=
  if q - ⌊q⌋ < 1/2 then ⌊q⌋
  else if 1/2 < q - ⌊q⌋ then ⌊q⌋ + 1
  else if ⌊q⌋ % 2 = 0 then ⌊q⌋ else ⌊q⌋ + 1

/-- Python round(x, d): round half to even at d decimal digits. -/
def roundTo (q : ℚ) (d : ℕ) : ℚ :=
  (roundHalfEven (q * 10 ^ d) : ℚ) / 10 ^ d

/-- The ETF transaction fee rate cost_rate = 0.001 of line 217. -/
def costRate : ℚ := 1/1000

/-- Dictionary lookup date_str in etf_dividends (lines 92-93). -/
def divLookup (l : List (TradeDate × ℚ)) (d : TradeDate) : Option ℚ :=
  (l.find? (fun p => decide (p.1 = d))).map (fun p => p.2)

/-- Signal generation, lines 97-113.  Python price_taiex >= ma_val is
m ≤ price; a NaN moving average (window not yet full) is none. -/
def genSignal (st : Strategy) (price : ℚ) (ma : Option ℚ) : ℤ :=
  match st with
  | .alwaysLong => 1
  | .maLong => match ma with
    | none => 0
    | some m => if m ≤ price then 1 else 0
  | .maTrend => match ma with
    | none => 0
    | some m => if m ≤ price then 1 else -1
  | .etfOnly => 0
  | .other => 0

/-- Backwardation yield accrual of lines 86-87: paid only on a long
position (contracts > 0), zero when flat or short. -/
def yieldPnl (contracts : ℤ) (prevTaiex dailyYield pointValue : ℚ) : ℚ :=
  if 0 < contracts then (contracts : ℚ) * (prevTaiex * dailyYield) * pointValue else 0

/-- Dividend credit of lines 92-95: paid when shares are held and the date
is a key of the dividend dictionary. -/
def dividendCredit (cfg : Config) (d : TradeDate) (s : SimState) : ℚ :=
  if 0 < s.etfShares then
    match divLookup cfg.etfDividends d with
    | some amt => (s.etfShares : ℚ) * amt
    | none => 0
  else 0

/-- The PnL block of lines 78-95, executed on every day after day 0:
futures mark-to-market against the previous close, backwardation yield,
and dividend income. -/
def accruePnl (cfg : Config) (prevTaiex : ℚ) (row : DayRow) (s : SimState) : SimState :=
  { s with
    cash := s.cash + (s.contracts : ℚ) * (row.taiex - prevTaiex) * cfg.pointValue
      + yieldPnl s.contracts prevTaiex (cfg.dividendYield / 252) cfg.pointValue
      + dividendCredit cfg row.date s,
    totalDividend := s.totalDividend + dividendCredit cfg row.date s }

/-- The rebalance targets computed at lines 124-181. -/
structure Targets where
  contracts : ℤ
  margin : ℚ
  etfValue : ℚ
deriving DecidableEq, Repr

/-- Target computation of lines 124-181.  The etf_only strategy override
comes first (lines 127-130); then the allocation modes.  Note that in the
fallback branch (lines 176-181) the source does not re-apply the sign of
the signal to target_contracts, unlike the dynamic branch. -/
def computeTargets (cfg : Config) (signal : ℤ) (totalEquity priceTaiex : ℚ) : Targets :=
  if cfg.strategy = .etfOnly then
    { contracts := 0, margin := 0,
      etfValue := if cfg.etfCode ≠ "none" then totalEquity else 0 }
  else
    match cfg.allocationMode with
    | .dynamic =>
      let notional := if signal ≠ 0 then totalEquity * cfg.leverage * ((|signal| : ℤ) : ℚ) else 0
      let tc0 := if 0 < priceTaiex then roundHalfEven (notional / (priceTaiex * cfg.pointValue)) else 0
      let tc := if signal = -1 then -tc0 else if signal = 0 then 0 else tc0
      let rm := ((|tc| : ℤ) : ℚ) * cfg.marginPerContract * cfg.riskMult
      { contracts := tc, margin := rm,
        etfValue := if cfg.etfCode ≠ "none" then max 0 (totalEquity - rm) else 0 }
    | .fixed =>
      if signal ≠ 0 then
        let tc0 := if 0 < priceTaiex then
            roundHalfEven ((totalEquity * cfg.futuresPct * cfg.leverage) / (priceTaiex * cfg.pointValue))
          else 0
        let tc := if signal = -1 then -tc0 else tc0
        { contracts := tc,
          margin := ((|tc| : ℤ) : ℚ) * cfg.marginPerContract * cfg.riskMult,
          etfValue := if cfg.etfCode ≠ "none" then totalEquity * cfg.etfPct else 0 }
      else
        { contracts := 0,
          margin := ((|(0 : ℤ)| : ℤ) : ℚ) * cfg.marginPerContract * cfg.riskMult,
          etfValue := if cfg.etfCode ≠ "none" then totalEquity * cfg.etfPct else 0 }
    | .futuresOnly =>
      let notional := if signal ≠ 0 then totalEquity * cfg.leverage * ((|signal| : ℤ) : ℚ) else 0
      let tc0 := if 0 < priceTaiex then roundHalfEven (notional / (priceTaiex * cfg.pointValue)) else 0
      let tc := if signal = -1 then -tc0 else if signal = 0 then 0 else tc0
      { contracts := tc,
        margin := ((|tc| : ℤ) : ℚ) * cfg.marginPerContract * cfg.riskMult,
        etfValue := 0 }
    | .other =>
      let notional := if signal ≠ 0 then totalEquity * cfg.leverage * ((|signal| : ℤ) : ℚ) else 0
      let tc := if 0 < priceTaiex then roundHalfEven (notional / (priceTaiex * cfg.pointValue)) else 0
      let rm := ((|tc| : ℤ) : ℚ) * cfg.marginPerContract * cfg.riskMult
      { contracts := tc, margin := rm,
        etfValue := if cfg.etfCode ≠ "none" then max 0 (totalEquity - rm) else 0 }

/-- Futures action labelling of lines 195-200. -/
def futuresAction (target diff : ℤ) : TradeAction :=
  if target = 0 then .close
  else if 0 < target then (if 0 < diff then .openLong else .reduce)
  else .openShort

/-- ETF market value used at lines 121 and 191: shares times price when
shares are held and the price is present, else 0 (no positivity test). -/
def etfValueAt (priceEtf : Option ℚ) (s : SimState) : ℚ :=
  match priceEtf with
  | some p => if 0 < s.etfShares then (s.etfShares : ℚ) * p else 0
  | none => 0

/-- Futures leg of the rebalance, lines 183-213: when the contract delta is
non-zero, charge 50 per contract, append a trade record, and in all cases
set contracts to the target. -/
def execFutures (d : TradeDate) (priceTaiex : ℚ) (priceEtf : Option ℚ) (target : ℤ) (s : SimState) : SimState :=
  if target - s.contracts = 0 then { s with contracts := target }
  else
    let diff := target - s.contracts
    let cost := ((|diff| : ℤ) : ℚ) * 50
    let cash := s.cash - cost
    { s with
      cash := cash,
      totalCost := s.totalCost + cost,
      contracts := target,
      tradeLog := { date := d, kind := .futures,
                    action := futuresAction target diff,
                    qtyDelta := diff, qtyAfter := target,
                    price := roundTo priceTaiex 0, tradeValue := 0, fee := cost,
                    equityAfter := roundTo (cash + etfValueAt priceEtf s) 0 } :: s.tradeLog }

/-- ETF buy leg, lines 226-254: the cash available is capped below by the
margin reserve, the affordable share count truncates the fee-inclusive
price, and the executed buy is the minimum of desired and affordable. -/
def execEtfBuy (d : TradeDate) (p rm : ℚ) (diff : ℤ) (s : SimState) : SimState :=
  if 0 < min diff (pyInt (max 0 (s.cash - rm) / (p * (1 + costRate)))) then
    let actual := min diff (pyInt (max 0 (s.cash - rm) / (p * (1 + costRate))))
    let tradeValue := (actual : ℚ) * p
    let cost := tradeValue * costRate
    let cash := s.cash - (cost + tradeValue)
    let shares := s.etfShares + actual
    { s with
      cash := cash,
      totalCost := s.totalCost + cost,
      etfShares := shares,
      tradeLog := { date := d, kind := .etf, action := .buy,
                    qtyDelta := actual, qtyAfter := shares,
                    price := roundTo p 2, tradeValue := roundTo tradeValue 0,
                    fee := roundTo cost 0,
                    equityAfter := roundTo (cash + (shares : ℚ) * p) 0 } :: s.tradeLog }
  else s

/-- ETF sell leg, lines 256-280: sells always execute in full. -/
def execEtfSell (d : TradeDate) (p : ℚ) (diff : ℤ) (s : SimState) : SimState :=
  let sell := |diff|
  let tradeValue := (sell : ℚ) * p
  let cost := tradeValue * costRate
  let cash := s.cash + (tradeValue - cost)
  let shares := s.etfShares - sell
  { s with
    cash := cash,
    totalCost := s.totalCost + cost,
    etfShares := shares,
    tradeLog := { date := d, kind := .etf, action := .sell,
                  qtyDelta := -sell, qtyAfter := shares,
                  price := roundTo p 2, tradeValue := roundTo tradeValue 0,
                  fee := roundTo cost 0,
                  equityAfter := roundTo (cash + (shares : ℚ) * p) 0 } :: s.tradeLog }

/-- ETF leg dispatch, lines 219-230 and 256: target share count truncates
target value over price, clamped at 0; buy when the delta is positive,
sell when negative, nothing when zero. -/
def execEtf (d : TradeDate) (p tev rm : ℚ) (s : SimState) : SimState :=
  if 0 < max 0 (pyInt (tev / p)) - s.etfShares then
    execEtfBuy d p rm (max 0 (pyInt (tev / p)) - s.etfShares) s
  else if max 0 (pyInt (tev / p)) - s.etfShares < 0 then
    execEtfSell d p (max 0 (pyInt (tev / p)) - s.etfShares) s
  else s

/-- The whole rebalance block, lines 119-282: recompute equity and targets,
run the futures leg, run the ETF leg when an ETF is configured and its
price is present and positive, and record the month. -/
def rebalanceStep (cfg : Config) (row : DayRow) (priceEtf : Option ℚ) (signal : ℤ) (s : SimState) : SimState :=
  let tgt := computeTargets cfg signal (s.cash + etfValueAt priceEtf s) row.taiex
  let s1 := execFutures row.date row.taiex priceEtf tgt.contracts s
  let s2 := match priceEtf with
    | some p => if cfg.etfCode ≠ "none" ∧ 0 < p then execEtf row.date p tgt.etfValue tgt.margin s1 else s1
    | none => s1
  { s2 with lastMonth := row.date.month }

/-- The rebalance trigger of line 117: first day of the run, or the month
of the date differs from the previously seen month. -/
def rebalanceFlag (prev : Option DayRow) (lastMonth : ℤ) (row : DayRow) : Bool :=
  prev.isNone || decide (row.date.month ≠ lastMonth)

/-- The mark-to-market of lines 286-294: ETF value from today's price when
present and positive, else the carried-forward last valid value. -/
def etfMark (priceEtf : Option ℚ) (s : SimState) : ℚ × ℚ :=
  if 0 < s.etfShares then
    match priceEtf with
    | some p => if 0 < p then ((s.etfShares : ℚ) * p, (s.etfShares : ℚ) * p)
                else (s.lastValidEtfValue, s.lastValidEtfValue)
    | none => (s.lastValidEtfValue, s.lastValidEtfValue)
  else (0, s.lastValidEtfValue)

/-- The clamp of lines 299-300: a non-positive equity is replaced by the
previous recorded equity, or by the initial capital on day 0. -/
def clampEquity (cfg : Config) (s : SimState) (te : ℚ) : ℚ :=
  if te ≤ 0 then
    match s.equityArr with
    | e :: _ => e
    | [] => cfg.initialCapital
  else te

/-- The end-of-day valuation, lines 284-302: mark the ETF, clamp, append. -/
def markEquity (cfg : Config) (priceEtf : Option ℚ) (s : SimState) : SimState :=
  { s with
    equityArr := clampEquity cfg s (s.cash + (etfMark priceEtf s).1) :: s.equityArr,
    lastValidEtfValue := (etfMark priceEtf s).2 }

/-- The effective ETF price of line 74: the column value when the ETF code
is not "none" and the column exists, else NaN. -/
def priceEtfOf (cfg : Config) (row : DayRow) : Option ℚ :=
  if cfg.etfCode ≠ "none" ∧ cfg.hasEtfColumn then row.etf else none

/-- One iteration of the daily loop, lines 70-302.  prev is the previous
row (none exactly on day 0), ma the MA column value for this row. -/
def stepDay (cfg : Config) (prev : Option DayRow) (ma : Option ℚ) (row : DayRow) (s : SimState) : SimState :=
  let s1 := match prev with
    | none => s
    | some pr => accruePnl cfg pr.taiex row s
  let s2 := if rebalanceFlag prev s1.lastMonth row then
      rebalanceStep cfg row (priceEtfOf cfg row) (genSignal cfg.strategy row.taiex ma) s1
    else s1
  markEquity cfg (priceEtfOf cfg row) s2

/-- The daily loop as a fold over the rows paired with their MA values. -/
def runDays (cfg : Config) : Option DayRow → List (DayRow × Option ℚ) → SimState → SimState
  | _, [], s => s
  | prev, (r, ma) :: rest, s => runDays cfg (some r) rest (stepDay cfg prev ma r s)

/-- The MA column of lines 48-51: rolling mean over maPeriod entries,
undefined (NaN) until the window is full or when maPeriod is not positive. -/
def maAt (w : ℤ) (prices : List ℚ) (i : ℕ) : Option ℚ :=
  if 0 < w ∧ w ≤ (i : ℤ) + 1 then
    some (((prices.take (i + 1)).drop (i + 1 - w.toNat)).sum / (w : ℚ))
  else none

/-- The full MA column for the run. -/
def maList (cfg : Config) (rows : List DayRow) : List (Option ℚ) :=
  (List.range rows.length).map (maAt cfg.maPeriod (rows.map (fun r => r.taiex)))

/-- Elapsed calendar days of line 311: last date minus first date. -/
def elapsedDays (rows : List DayRow) : ℤ :=
  match rows.head?, rows.getLast? with
  | some h, some l => l.date.serial - h.date.serial
  | _, _ => 0

/-- Running-maximum drawdown minimum of lines 316-319. -/
def mddAux : ℚ → ℚ → List ℚ → ℚ
  | _, cur, [] => cur
  | peak, cur, e :: rest => mddAux (max peak e) (min cur ((e - max peak e) / max peak e)) rest

/-- Max drawdown of the equity series (0 for an empty series). -/
def mddOf : List ℚ → ℚ
  | [] => 0
  | e :: rest => mddAux e 0 rest

/-- The initial loop state of lines 58-68. -/
def initState (cfg : Config) (rows : List DayRow) : SimState :=
  { cash := cfg.initialCapital, contracts := 0, etfShares := 0,
    lastValidEtfValue := 0,
    lastMonth := (rows.head?.map (fun r => r.date.month)).getD 0,
    equityArr := [], tradeLog := [], totalCost := 0, totalDividend := 0 }

/-- The whole of run_backtest, lines 45-334 (cagr excepted, see cagr). -/
def runBacktest (cfg : Config) (rows : List DayRow) : BacktestResult :=
  let fin := runDays cfg none (rows.zip (maList cfg rows)) (initState cfg rows)
  let equity := fin.equityArr.reverse
  let finalEquity := fin.equityArr.head?.getD cfg.initialCapital
  { table := rows.zip ((maList cfg rows).zip equity),
    trades := fin.tradeLog.reverse,
    stats := { initialCapital := cfg.initialCapital,
               finalEquity := finalEquity,
               totalReturn := (finalEquity - cfg.initialCapital) / cfg.initialCapital,
               years := max ((elapsedDays rows : ℚ) / (1461/4)) (1/100),
               mdd := mddOf equity,
               totalCost := fin.totalCost,
               totalDividend := fin.totalDividend,
               allocationMode := cfg.allocationMode,
               futuresPct := cfg.futuresPct,
               etfPct := cfg.etfPct } }

/-- The Equity column of the augmented table. -/
def equitySeries (r : BacktestResult) : List ℚ :=
  r.table.map (fun x => x.2.2)

/-- The cagr entry of line 313: (final/initial) ** (1/years) - 1, a real
power, hence kept outside the computable statistics record. -/
noncomputable def cagr (s : Stats) : ℝ :=
  ((s.finalEquity : ℝ) / (s.initialCapital : ℝ)) ^ ((1 : ℝ) / (s.years : ℝ)) - 1

/-- Shape of every trade record appended by a rebalance: ETF rows are
labelled by kind, futures rows carry the label futuresAction and a
non-zero delta. -/
def GoodTrade (t : TradeRecord) : Prop :=
  t.kind = TradeKind.etf ∨
    (t.kind = TradeKind.futures ∧ t.action = futuresAction t.qtyAfter t.qtyDelta ∧ t.qtyDelta ≠ 0)

/-- Rebalance days as the specification words them: the dates of the first
day of the run and of every later day whose calendar month differs from
the previous day's month.  The first argument is the previous day (none
at the start of the run). -/
def specDatesFrom : Option DayRow → List DayRow → List TradeDate
  | _, [] => []
  | none, r :: rs => r.date :: specDatesFrom (some r) rs
  | some p, r :: rs =>
      if r.date.month ≠ p.date.month then r.date :: specDatesFrom (some r) rs
      else specDatesFrom (some r) rs

/-- The specification's set of rebalance dates for a whole run. -/
def specRebalanceDates (rows : List DayRow) : List TradeDate :=
  specDatesFrom none rows

/-- The specification's per-day rebalance decision: true on the first day,
and on each later day exactly when its month differs from the previous
day's month. -/
def specFlags : Option DayRow → List DayRow → List Bool
  | _, [] => []
  | none, r :: rs => true :: specFlags (some r) rs
  | some p, r :: rs => decide (r.date.month ≠ p.date.month) :: specFlags (some r) rs

/-- The engine's per-day rebalance decision, read off the same state thread
that runDays uses (the flag of line 117 with the lastMonth the loop
actually carries). -/
def flagsOf (cfg : Config) : Option DayRow → List (DayRow × Option ℚ) → SimState → List Bool
  | _, [], _ => []
  | prev, (r, ma) :: rest, s =>
      rebalanceFlag prev s.lastMonth r :: flagsOf cfg (some r) rest (stepDay cfg prev ma r s)

/-- A default record for positional access into concrete ledgers. -/
def defaultTradeRecord : TradeRecord :=
  { date := { month := 0, serial := 0 }, kind := TradeKind.futures,
    action := TradeAction.close, qtyDelta := 0, qtyAfter := 0,
    price := 0, tradeValue := 0, fee := 0, equityAfter := 0 }

/-- A concrete futures-only ma-trend run: four days over three months, in
which the second rebalance partially covers a short position. -/
def cfgTrend : Config :=
  { strategy := .maTrend, etfCode := "none", hasEtfColumn := false, etfDividends := [],
    initialCapital := 1000, leverage := 1, maPeriod := 3, riskMult := 3,
    dividendYield := 0, allocationMode := .dynamic, futuresPct := 3/5, etfPct := 2/5,
    marginPerContract := 1, pointValue := 1 }

/-- The four input days of the cfgTrend scenario. -/
def rowsTrend : List DayRow :=
  [{ date := { month := 1, serial := 0 }, taiex := 400, etf := none },
   { date := { month := 1, serial := 1 }, taiex := 400, etf := none },
   { date := { month := 2, serial := 31 }, taiex := 100, etf := none },
   { date := { month := 3, serial := 59 }, taiex := 130, etf := none }]

/-- A two-day, two-month input with a falling index. -/
def rowsTwoMonths : List DayRow :=
  [{ date := { month := 1, serial := 0 }, taiex := 200, etf := none },
   { date := { month := 2, serial := 31 }, taiex := 100, etf := none }]

/-- cfgTrend with a two-day MA and the fallback allocation branch. -/
def cfgFallback : Config :=
  { cfgTrend with maPeriod := 2, allocationMode := .other }

/-- cfgFallback with allocation mode dynamic instead; the two configs
differ in no other field. -/
def cfgDynamicRef : Config :=
  { cfgTrend with maPeriod := 2, allocationMode := .dynamic }

/-- A pure-ETF run configuration with a configured ETF. -/
def cfgEtfOnlyRun : Config :=
  { strategy := .etfOnly, etfCode := "0056", hasEtfColumn := true, etfDividends := [],
    initialCapital := 1000, leverage := 1, maPeriod := 1, riskMult := 3,
    dividendYield := 0, allocationMode := .dynamic, futuresPct := 3/5, etfPct := 2/5,
    marginPerContract := 1, pointValue := 1 }

/-- Two days with a constant ETF price for the pure-ETF scenario. -/
def rowsEtf : List DayRow :=
  [{ date := { month := 1, serial := 0 }, taiex := 100, etf := some 10 },
   { date := { month := 2, serial := 31 }, taiex := 100, etf := some 10 }]

/-- Fixed-allocation ma-trend configuration with a configured ETF. -/
def cfgFixedTrend : Config :=
  { cfgEtfOnlyRun with strategy := .maTrend, allocationMode := .fixed }

/-- Fixed-allocation configuration with the etf_only strategy override. -/
def cfgFixedEtfOnly : Config :=
  { cfgFixedTrend with strategy := .etfOnly }

/-- Fixed-allocation configuration with no ETF configured. -/
def cfgFixedNoEtf : Config :=
  { cfgFixedTrend with strategy := .alwaysLong, etfCode := "none" }

/-- A single input day (used for the statistics boundary case). -/
def rowsOneDay : List DayRow :=
  [{ date := { month := 1, serial := 0 }, taiex := 100, etf := none }]

/-- cfgTrend with a non-zero backwardation yield. -/
def cfgYield : Config :=
  { cfgTrend with dividendYield := 1/10 }

/-- A mid-run state holding cash only, used as an ETF-purchase witness. -/
def stateBuy : SimState :=
  { cash := 1000, contracts := 0, etfShares := 0, lastValidEtfValue := 0,
    lastMonth := 1, equityArr := [], tradeLog := [], totalCost := 0, totalDividend := 0 }

/-- A mid-run state holding a two-contract long position. -/
def stateLong : SimState :=
  { cash := 1000, contracts := 2, etfShares := 0, lastValidEtfValue := 0,
    lastMonth := 1, equityArr := [], tradeLog := [], totalCost := 0, totalDividend := 0 }

lemma accruePnl_tradeLog (cfg : Config) (pt : ℚ) (row : DayRow) (s : SimState) :
    (accruePnl cfg pt row s).tradeLog = s.tradeLog := rfl

lemma accruePnl_equityArr (cfg : Config) (pt : ℚ) (row : DayRow) (s : SimState) :
    (accruePnl cfg pt row s).equityArr = s.equityArr := rfl

lemma accruePnl_contracts (cfg : Config) (pt : ℚ) (row : DayRow) (s : SimState) :
    (accruePnl cfg pt row s).contracts = s.contracts := rfl

lemma accruePnl_lastMonth (cfg : Config) (pt : ℚ) (row : DayRow) (s : SimState) :
    (accruePnl cfg pt row s).lastMonth = s.lastMonth := rfl

lemma markEquity_tradeLog (cfg : Config) (pe : Option ℚ) (s : SimState) :
    (markEquity cfg pe s).tradeLog = s.tradeLog := rfl

lemma markEquity_contracts (cfg : Config) (pe : Option ℚ) (s : SimState) :
    (markEquity cfg pe s).contracts = s.contracts := rfl

lemma markEquity_lastMonth (cfg : Config) (pe : Option ℚ) (s : SimState) :
    (markEquity cfg pe s).lastMonth = s.lastMonth := rfl

lemma markEquity_equityArr (cfg : Config) (pe : Option ℚ) (s : SimState) :
    (markEquity cfg pe s).equityArr
      = clampEquity cfg s (s.cash + (etfMark pe s).1) :: s.equityArr := rfl

lemma execFutures_contracts (d : TradeDate) (pt : ℚ) (pe : Option ℚ) (tgt : ℤ) (s : SimState) :
    (execFutures d pt pe tgt s).contracts = tgt := by
  unfold execFutures; split <;> rfl

lemma execFutures_equityArr (d : TradeDate) (pt : ℚ) (pe : Option ℚ) (tgt : ℤ) (s : SimState) :
    (execFutures d pt pe tgt s).equityArr = s.equityArr := by
  unfold execFutures; split <;> rfl

lemma execFutures_lastMonth (d : TradeDate) (pt : ℚ) (pe : Option ℚ) (tgt : ℤ) (s : SimState) :
    (execFutures d pt pe tgt s).lastMonth = s.lastMonth := by
  unfold execFutures; split <;> rfl

lemma mem_tradeLog_execFutures (d : TradeDate) (pt : ℚ) (pe : Option ℚ) (tgt : ℤ)
    (s : SimState) (t : TradeRecord) (ht : t ∈ (execFutures d pt pe tgt s).tradeLog) :
    t ∈ s.tradeLog ∨ (t.date = d ∧ GoodTrade t) := by
  unfold execFutures at ht
  split at ht
  · exact Or.inl ht
  · rename_i h
    simp only [List.mem_cons] at ht
    cases ht with
    | inl he =>
      subst he
      exact Or.inr ⟨rfl, Or.inr ⟨rfl, rfl, h⟩⟩
    | inr hm => exact Or.inl hm

lemma execEtfBuy_contracts (d : TradeDate) (p rm : ℚ) (diff : ℤ) (s : SimState) :
    (execEtfBuy d p rm diff s).contracts = s.contracts := by
  unfold execEtfBuy; split <;> rfl

lemma execEtfBuy_equityArr (d : TradeDate) (p rm : ℚ) (diff : ℤ) (s : SimState) :
    (execEtfBuy d p rm diff s).equityArr = s.equityArr := by
  unfold execEtfBuy; split <;> rfl

lemma execEtfBuy_lastMonth (d : TradeDate) (p rm : ℚ) (diff : ℤ) (s : SimState) :
    (execEtfBuy d p rm diff s).lastMonth = s.lastMonth := by
  unfold execEtfBuy; split <;> rfl

lemma mem_tradeLog_execEtfBuy (d : TradeDate) (p rm : ℚ) (diff : ℤ)
    (s : SimState) (t : TradeRecord) (ht : t ∈ (execEtfBuy d p rm diff s).tradeLog) :
    t ∈ s.tradeLog ∨ (t.date = d ∧ t.kind = TradeKind.etf) := by
  unfold execEtfBuy at ht
  split at ht
  · simp only [List.mem_cons] at ht
    cases ht with
    | inl he => subst he; exact Or.inr ⟨rfl, rfl⟩
    | inr hm => exact Or.inl hm
  · exact Or.inl ht

lemma execEtfSell_contracts (d : TradeDate) (p : ℚ) (diff : ℤ) (s : SimState) :
    (execEtfSell d p diff s).contracts = s.contracts := rfl

lemma execEtfSell_equityArr (d : TradeDate) (p : ℚ) (diff : ℤ) (s : SimState) :
    (execEtfSell d p diff s).equityArr = s.equityArr := rfl

lemma execEtfSell_lastMonth (d : TradeDate) (p : ℚ) (diff : ℤ) (s : SimState) :
    (execEtfSell d p diff s).lastMonth = s.lastMonth := rfl

lemma mem_tradeLog_execEtfSell (d : TradeDate) (p : ℚ) (diff : ℤ)
    (s : SimState) (t : TradeRecord) (ht : t ∈ (execEtfSell d p diff s).tradeLog) :
    t ∈ s.tradeLog ∨ (t.date = d ∧ t.kind = TradeKind.etf) := by
  unfold execEtfSell at ht
  simp only [List.mem_cons] at ht
  cases ht with
  | inl he => subst he; exact Or.inr ⟨rfl, rfl⟩
  | inr hm => exact Or.inl hm

lemma execEtf_contracts (d : TradeDate) (p tev rm : ℚ) (s : SimState) :
    (execEtf d p tev rm s).contracts = s.contracts := by
  unfold execEtf
  split
  · exact execEtfBuy_contracts _ _ _ _ _
  · split
    · exact execEtfSell_contracts _ _ _ _
    · rfl

lemma execEtf_equityArr (d : TradeDate) (p tev rm : ℚ) (s : SimState) :
    (execEtf d p tev rm s).equityArr = s.equityArr := by
  unfold execEtf
  split
  · exact execEtfBuy_equityArr _ _ _ _ _
  · split
    · exact execEtfSell_equityArr _ _ _ _
    · rfl

lemma execEtf_lastMonth (d : TradeDate) (p tev rm : ℚ) (s : SimState) :
    (execEtf d p tev rm s).lastMonth = s.lastMonth := by
  unfold execEtf
  split
  · exact execEtfBuy_lastMonth _ _ _ _ _
  · split
    · exact execEtfSell_lastMonth _ _ _ _
    · rfl

lemma mem_tradeLog_execEtf (d : TradeDate) (p tev rm : ℚ)
    (s : SimState) (t : TradeRecord) (ht : t ∈ (execEtf d p tev rm s).tradeLog) :
    t ∈ s.tradeLog ∨ (t.date = d ∧ t.kind = TradeKind.etf) := by
  unfold execEtf at ht
  split at ht
  · exact mem_tradeLog_execEtfBuy _ _ _ _ _ _ ht
  · split at ht
    · exact mem_tradeLog_execEtfSell _ _ _ _ _ ht
    · exact Or.inl ht

lemma rebalanceStep_lastMonth (cfg : Config) (row : DayRow) (pe : Option ℚ)
    (sg : ℤ) (s : SimState) :
    (rebalanceStep cfg row pe sg s).lastMonth = row.date.month := rfl

lemma rebalanceStep_equityArr (cfg : Config) (row : DayRow) (pe : Option ℚ)
    (sg : ℤ) (s : SimState) :
    (rebalanceStep cfg row pe sg s).equityArr = s.equityArr := by
  cases pe with
  | none => simp [rebalanceStep, execFutures_equityArr]
  | some p =>
    simp only [rebalanceStep]
    split
    · simp [execEtf_equityArr, execFutures_equityArr]
    · simp [execFutures_equityArr]

lemma mem_tradeLog_rebalanceStep (cfg : Config) (row : DayRow) (pe : Option ℚ)
    (sg : ℤ) (s : SimState) (t : TradeRecord)
    (ht : t ∈ (rebalanceStep cfg row pe sg s).tradeLog) :
    t ∈ s.tradeLog ∨ (t.date = row.date ∧ GoodTrade t) := by
  cases pe with
  | none =>
    simp only [rebalanceStep] at ht
    exact mem_tradeLog_execFutures _ _ _ _ _ _ ht
  | some p =>
    simp only [rebalanceStep] at ht
    split at ht
    · cases mem_tradeLog_execEtf _ _ _ _ _ _ ht with
      | inl h2 => exact mem_tradeLog_execFutures _ _ _ _ _ _ h2
      | inr h2 => exact Or.inr ⟨h2.1, Or.inl h2.2⟩
    · exact mem_tradeLog_execFutures _ _ _ _ _ _ ht

lemma futuresAction_cases (target diff : ℤ) :
    (target = 0 → futuresAction target diff = TradeAction.close) ∧
    (target < 0 → futuresAction target diff = TradeAction.openShort) ∧
    (0 < target → 0 < diff → futuresAction target diff = TradeAction.openLong) ∧
    (0 < target → diff < 0 → futuresAction target diff = TradeAction.reduce) := by
  refine ⟨fun h => ?_, fun h => ?_, fun h1 h2 => ?_, fun h1 h2 => ?_⟩
  · unfold futuresAction
    rw [if_pos h]
  · unfold futuresAction
    rw [if_neg (by omega), if_neg (by omega)]
  · unfold futuresAction
    rw [if_neg (by omega), if_pos h1, if_pos h2]
  · unfold futuresAction
    rw [if_neg (by omega), if_pos h1, if_neg (by omega)]

lemma computeTargets_etfOnly (cfg : Config) (sg : ℤ) (te pt : ℚ)
    (hS : cfg.strategy = Strategy.etfOnly) :
    computeTargets cfg sg te pt
      = { contracts := 0, margin := 0,
          etfValue := if cfg.etfCode ≠ "none" then te else 0 } := by
  unfold computeTargets
  rw [if_pos hS]

lemma execFutures_tradeLog_zero (d : TradeDate) (pt : ℚ) (pe : Option ℚ)
    (s : SimState) (hc : s.contracts = 0) :
    (execFutures d pt pe 0 s).tradeLog = s.tradeLog := by
  unfold execFutures
  rw [if_pos (by omega)]

lemma rebalanceStep_contracts (cfg : Config) (row : DayRow) (pe : Option ℚ)
    (sg : ℤ) (s : SimState) :
    (rebalanceStep cfg row pe sg s).contracts
      = (computeTargets cfg sg (s.cash + etfValueAt pe s) row.taiex).contracts := by
  cases pe with
  | none => simp [rebalanceStep, execFutures_contracts]
  | some p =>
    simp only [rebalanceStep]
    split
    · simp [execEtf_contracts, execFutures_contracts]
    · simp [execFutures_contracts]

lemma rebalanceStep_etfOnly_trades (cfg : Config) (row : DayRow) (pe : Option ℚ)
    (sg : ℤ) (s : SimState) (hS : cfg.strategy = Strategy.etfOnly)
    (hc : s.contracts = 0) (t : TradeRecord)
    (ht : t ∈ (rebalanceStep cfg row pe sg s).tradeLog) :
    t ∈ s.tradeLog ∨ t.kind = TradeKind.etf := by
  have htgt : (computeTargets cfg sg (s.cash + etfValueAt pe s) row.taiex).contracts = 0 := by
    rw [computeTargets_etfOnly cfg sg _ _ hS]
  cases pe with
  | none =>
    simp only [rebalanceStep, htgt] at ht
    rw [execFutures_tradeLog_zero _ _ _ _ hc] at ht
    exact Or.inl ht
  | some p =>
    simp only [rebalanceStep, htgt] at ht
    split at ht
    · cases mem_tradeLog_execEtf _ _ _ _ _ _ ht with
      | inl h2 =>
        rw [execFutures_tradeLog_zero _ _ _ _ hc] at h2
        exact Or.inl h2
      | inr h2 => exact Or.inr h2.2
    · rw [execFutures_tradeLog_zero _ _ _ _ hc] at ht
      exact Or.inl ht

lemma stepDay_lastMonth (cfg : Config) (prev : Option DayRow) (ma : Option ℚ)
    (row : DayRow) (s : SimState) :
    (stepDay cfg prev ma row s).lastMonth = row.date.month := by
  cases prev with
  | none =>
    simp only [stepDay, markEquity_lastMonth]
    split
    · exact rebalanceStep_lastMonth _ _ _ _ _
    · rename_i h
      simp [rebalanceFlag] at h
  | some pr =>
    simp only [stepDay, markEquity_lastMonth]
    split
    · exact rebalanceStep_lastMonth _ _ _ _ _
    · rename_i h
      simp only [rebalanceFlag, Bool.or_eq_true, decide_eq_true_eq] at h
      push_neg at h
      rw [accruePnl_lastMonth]
      rw [accruePnl_lastMonth] at h
      exact h.2.symm

lemma stepDay_tradeLog_cases (cfg : Config) (prev : Option DayRow) (ma : Option ℚ)
    (row : DayRow) (s : SimState) (t : TradeRecord)
    (ht : t ∈ (stepDay cfg prev ma row s).tradeLog) :
    t ∈ s.tradeLog ∨
      (rebalanceFlag prev s.lastMonth row = true ∧ t.date = row.date ∧ GoodTrade t) := by
  cases prev with
  | none =>
    simp only [stepDay, markEquity_tradeLog] at ht
    split at ht
    · rcases mem_tradeLog_rebalanceStep _ _ _ _ _ _ ht with h2 | h2
      · exact Or.inl h2
      · exact Or.inr ⟨rfl, h2.1, h2.2⟩
    · exact Or.inl ht
  | some pr =>
    simp only [stepDay, markEquity_tradeLog] at ht
    split at ht
    · rename_i hf
      rcases mem_tradeLog_rebalanceStep _ _ _ _ _ _ ht with h2 | h2
      · rw [accruePnl_tradeLog] at h2
        exact Or.inl h2
      · rw [accruePnl_lastMonth] at hf
        exact Or.inr ⟨hf, h2.1, h2.2⟩
    · rw [accruePnl_tradeLog] at ht
      exact Or.inl ht

lemma stepDay_etfOnly (cfg : Config) (prev : Option DayRow) (ma : Option ℚ)
    (row : DayRow) (s : SimState) (hS : cfg.strategy = Strategy.etfOnly)
    (hc : s.contracts = 0) :
    (stepDay cfg prev ma row s).contracts = 0 ∧
      ∀ t ∈ (stepDay cfg prev ma row s).tradeLog,
        t ∈ s.tradeLog ∨ t.kind = TradeKind.etf := by
  cases prev with
  | none =>
    constructor
    · simp only [stepDay, markEquity_contracts]
      split
      · rw [rebalanceStep_contracts, computeTargets_etfOnly cfg _ _ _ hS]
      · exact hc
    · intro t ht
      simp only [stepDay, markEquity_tradeLog] at ht
      split at ht
      · exact rebalanceStep_etfOnly_trades _ _ _ _ _ hS hc t ht
      · exact Or.inl ht
  | some pr =>
    constructor
    · simp only [stepDay, markEquity_contracts]
      split
      · rw [rebalanceStep_contracts, computeTargets_etfOnly cfg _ _ _ hS]
      · rw [accruePnl_contracts]
        exact hc
    · intro t ht
      simp only [stepDay, markEquity_tradeLog] at ht
      split at ht
      · rcases rebalanceStep_etfOnly_trades _ _ _ _ _ hS
            (by rw [accruePnl_contracts]; exact hc) t ht with h2 | h2
        · rw [accruePnl_tradeLog] at h2
          exact Or.inl h2
        · exact Or.inr h2
      · rw [accruePnl_tradeLog] at ht
        exact Or.inl ht

lemma clampEquity_pos (cfg : Config) (s : SimState) (te : ℚ)
    (h0 : 0 < cfg.initialCapital) (hinv : ∀ e ∈ s.equityArr, 0 < e) :
    0 < clampEquity cfg s te := by
  unfold clampEquity
  split
  · cases hsa : s.equityArr with
    | nil => simp only [hsa]; exact h0
    | cons e rest =>
      simp only [hsa]
      exact hinv e (by rw [hsa]; exact List.mem_cons_self e rest)
  · rename_i hte
    exact not_le.mp hte

lemma markEquity_pos (cfg : Config) (pe : Option ℚ) (s : SimState)
    (h0 : 0 < cfg.initialCapital) (hinv : ∀ e ∈ s.equityArr, 0 < e) :
    ∀ e ∈ (markEquity cfg pe s).equityArr, 0 < e := by
  intro e he
  rw [markEquity_equityArr, List.mem_cons] at he
  cases he with
  | inl hee => exact hee ▸ clampEquity_pos cfg s _ h0 hinv
  | inr hm => exact hinv e hm

lemma stepDay_equity_pos (cfg : Config) (prev : Option DayRow) (ma : Option ℚ)
    (row : DayRow) (s : SimState) (h0 : 0 < cfg.initialCapital)
    (hinv : ∀ e ∈ s.equityArr, 0 < e) :
    ∀ e ∈ (stepDay cfg prev ma row s).equityArr, 0 < e := by
  have h2 : ∀ (s2 : SimState), s2.equityArr = s.equityArr →
      ∀ e ∈ (markEquity cfg (priceEtfOf cfg row) s2).equityArr, 0 < e :=
    fun s2 hs2 => markEquity_pos cfg _ s2 h0 (by rw [hs2]; exact hinv)
  cases prev with
  | none =>
    simp only [stepDay]
    apply h2
    split
    · exact rebalanceStep_equityArr _ _ _ _ _
    · rfl
  | some pr =>
    simp only [stepDay]
    apply h2
    split
    · rw [rebalanceStep_equityArr, accruePnl_equityArr]
    · exact accruePnl_equityArr _ _ _ _

lemma stepDay_equityArr_shape (cfg : Config) (prev : Option DayRow) (ma : Option ℚ)
    (row : DayRow) (s : SimState) :
    ∃ x, (stepDay cfg prev ma row s).equityArr = x :: s.equityArr := by
  cases prev with
  | none =>
    simp only [stepDay, markEquity_equityArr]
    split
    · exact ⟨_, by rw [rebalanceStep_equityArr]⟩
    · exact ⟨_, rfl⟩
  | some pr =>
    simp only [stepDay, markEquity_equityArr]
    split
    · exact ⟨_, by rw [rebalanceStep_equityArr, accruePnl_equityArr]⟩
    · exact ⟨_, by rw [accruePnl_equityArr]⟩

lemma runDays_equity_pos (cfg : Config) (h0 : 0 < cfg.initialCapital) :
    ∀ (Z : List (DayRow × Option ℚ)) (prev : Option DayRow) (s : SimState),
      (∀ e ∈ s.equityArr, 0 < e) → ∀ e ∈ (runDays cfg prev Z s).equityArr, 0 < e := by
  intro Z
  induction Z with
  | nil => intro prev s hinv e he; exact hinv e he
  | cons hd rest ih =>
    intro prev s hinv
    obtain ⟨r, ma⟩ := hd
    simp only [runDays]
    exact ih (some r) (stepDay cfg prev ma r s) (stepDay_equity_pos cfg prev ma r s h0 hinv)

lemma runDays_equity_length (cfg : Config) :
    ∀ (Z : List (DayRow × Option ℚ)) (prev : Option DayRow) (s : SimState),
      (runDays cfg prev Z s).equityArr.length = Z.length + s.equityArr.length := by
  intro Z
  induction Z with
  | nil => intro prev s; simp [runDays]
  | cons hd rest ih =>
    intro prev s
    obtain ⟨r, ma⟩ := hd
    simp only [runDays]
    rw [ih]
    obtain ⟨x, hx⟩ := stepDay_equityArr_shape cfg prev ma r s
    rw [hx]
    simp only [List.length_cons]
    omega

lemma flagsOf_eq (cfg : Config) :
    ∀ (Z : List (DayRow × Option ℚ)) (prev : Option DayRow) (s : SimState),
      (∀ p, prev = some p → s.lastMonth = p.date.month) →
      flagsOf cfg prev Z s = specFlags prev (Z.map Prod.fst) := by
  intro Z
  induction Z with
  | nil => intro prev s _; cases prev <;> rfl
  | cons hd rest ih =>
    intro prev s hp
    obtain ⟨r, ma⟩ := hd
    have htail := ih (some r) (stepDay cfg prev ma r s)
      (fun p hp2 => by cases hp2; exact stepDay_lastMonth cfg prev ma r s)
    cases prev with
    | none =>
      simp only [flagsOf, List.map_cons, specFlags]
      rw [htail]
      rfl
    | some p =>
      have hm := hp p rfl
      simp only [flagsOf, List.map_cons, specFlags]
      rw [htail, hm]
      rfl

lemma runDays_trades_aux (cfg : Config) :
    ∀ (Z : List (DayRow × Option ℚ)) (prev : Option DayRow) (s : SimState),
      (∀ p, prev = some p → s.lastMonth = p.date.month) →
      ∀ t ∈ (runDays cfg prev Z s).tradeLog,
        t ∈ s.tradeLog ∨ (t.date ∈ specDatesFrom prev (Z.map Prod.fst) ∧ GoodTrade t) := by
  intro Z
  induction Z with
  | nil => intro prev s _ t ht; exact Or.inl ht
  | cons hd rest ih =>
    intro prev s hp t ht
    obtain ⟨r, ma⟩ := hd
    simp only [runDays] at ht
    have hrec := ih (some r) (stepDay cfg prev ma r s)
      (fun p hp2 => by cases hp2; exact stepDay_lastMonth cfg prev ma r s) t ht
    rcases hrec with hin | ⟨hdate, hgood⟩
    · rcases stepDay_tradeLog_cases cfg prev ma r s t hin with hin2 | ⟨hflag, hdate, hgood⟩
      · exact Or.inl hin2
      · right
        refine ⟨?_, hgood⟩
        rw [hdate]
        cases prev with
        | none =>
          simp only [List.map_cons, specDatesFrom]
          exact List.mem_cons_self _ _
        | some p =>
          have hm := hp p rfl
          simp only [rebalanceFlag, Option.isNone_some, Bool.false_or,
            decide_eq_true_eq] at hflag
          rw [hm] at hflag
          simp only [List.map_cons, specDatesFrom]
          rw [if_pos hflag]
          exact List.mem_cons_self _ _
    · right
      refine ⟨?_, hgood⟩
      cases prev with
      | none =>
        simp only [List.map_cons, specDatesFrom]
        exact List.mem_cons_of_mem _ hdate
      | some p =>
        simp only [List.map_cons, specDatesFrom]
        split
        · exact List.mem_cons_of_mem _ hdate
        · exact hdate

lemma runDays_etfOnly (cfg : Config) (hS : cfg.strategy = Strategy.etfOnly) :
    ∀ (Z : List (DayRow × Option ℚ)) (prev : Option DayRow) (s : SimState),
      s.contracts = 0 →
      (runDays cfg prev Z s).contracts = 0 ∧
        ∀ t ∈ (runDays cfg prev Z s).tradeLog,
          t ∈ s.tradeLog ∨ t.kind = TradeKind.etf := by
  intro Z
  induction Z with
  | nil => intro prev s hc; exact ⟨hc, fun t ht => Or.inl ht⟩
  | cons hd rest ih =>
    intro prev s hc
    obtain ⟨r, ma⟩ := hd
    obtain ⟨hc2, hlog2⟩ := stepDay_etfOnly cfg prev ma r s hS hc
    obtain ⟨ihc, ihlog⟩ := ih (some r) (stepDay cfg prev ma r s) hc2
    refine ⟨by simp only [runDays]; exact ihc, ?_⟩
    intro t ht
    simp only [runDays] at ht
    rcases ihlog t ht with h2 | h2
    · exact hlog2 t h2
    · exact Or.inr h2

lemma zip_ma_map_fst (cfg : Config) (rows : List DayRow) :
    (rows.zip (maList cfg rows)).map Prod.fst = rows := by
  apply List.map_fst_zip
  simp [maList]

/-- C1: for every run whose initial_capital is strictly positive, every
entry of the daily equity series produced by run_backtest is strictly
positive: the clamp of lines 299-300 replaces a non-positive day value by
the previous recorded equity (or the initial capital on day 0), so the
series never contains a non-positive value. -/
theorem equity_always_positive (cfg : Config) (rows : List DayRow)
    (h0 : 0 < cfg.initialCapital) :
    ∀ e ∈ equitySeries (runBacktest cfg rows), 0 < e := by
  intro e he
  simp only [equitySeries, runBacktest, List.mem_map] at he
  obtain ⟨⟨xa, xb, xc⟩, hx, hxe⟩ := he
  have h2 := (List.of_mem_zip hx).2
  have h3 := (List.of_mem_zip h2).2
  have h4 := List.mem_reverse.mp h3
  have h5 := runDays_equity_pos cfg h0 (rows.zip (maList cfg rows)) none
    (initState cfg rows) (by intro y hy; simp [initState] at hy) xc h4
  simpa [← hxe] using h5

set_option allowUnsafeReducibility true in
attribute [local semireducible] Rat.mul Rat.add Rat.sub Rat.inv in
/-- Witness for C1 at a concrete run: the first equity entry of the
cfgTrend scenario is positive. -/
theorem equity_always_positive_witness :
    0 < (equitySeries (runBacktest cfgTrend rowsTrend)).getD 0 0 :=
  equity_always_positive cfgTrend rowsTrend (by decide) _ (by decide)

/-- C5: for every run with strategy etf_only and an ETF selector other
than "none", every ledger entry has instrument kind ETF, and the futures
contract count is 0 at every state the loop passes through (the second
conjunct quantifies over any suffix of days started from any state with
zero contracts, which covers every day of the run). -/
theorem etf_only_no_futures (cfg : Config) (rows : List DayRow)
    (h1 : cfg.strategy = Strategy.etfOnly) (h2 : cfg.etfCode ≠ "none") :
    (∀ t ∈ (runBacktest cfg rows).trades, t.kind = TradeKind.etf) ∧
    (∀ (Z : List (DayRow × Option ℚ)) (prev : Option DayRow) (s : SimState),
      s.contracts = 0 → (runDays cfg prev Z s).contracts = 0) := by
  constructor
  · intro t ht
    simp only [runBacktest, List.mem_reverse] at ht
    rcases (runDays_etfOnly cfg h1 (rows.zip (maList cfg rows)) none
        (initState cfg rows) rfl).2 t ht with hin | hk
    · simp [initState] at hin
    · exact hk
  · intro Z prev s hc
    exact (runDays_etfOnly cfg h1 Z prev s hc).1

set_option allowUnsafeReducibility true in
attribute [local semireducible] Rat.mul Rat.add Rat.sub Rat.inv in
/-- Witness for C5: the single ledger entry of the pure-ETF scenario is an
ETF record. -/
theorem etf_only_no_futures_witness :
    ((runBacktest cfgEtfOnlyRun rowsEtf).trades.getD 0 defaultTradeRecord).kind
      = TradeKind.etf :=
  (etf_only_no_futures cfgEtfOnlyRun rowsEtf rfl (by decide)).1 _ (by decide)

/-- C6: the engine rebalances exactly on day 0 and on each later day whose
calendar month differs from the previous day's month (the per-day flag the
loop computes coincides with that characterisation), and every ledger
entry carries the date of such a rebalance day. -/
theorem rebalance_days_and_trade_dates (cfg : Config) (rows : List DayRow) :
    flagsOf cfg none (rows.zip (maList cfg rows)) (initState cfg rows)
        = specFlags none rows ∧
    ∀ t ∈ (runBacktest cfg rows).trades, t.date ∈ specRebalanceDates rows := by
  constructor
  · rw [flagsOf_eq cfg (rows.zip (maList cfg rows)) none (initState cfg rows)
      (fun p hp => nomatch hp), zip_ma_map_fst]
  · intro t ht
    simp only [runBacktest, List.mem_reverse] at ht
    rcases runDays_trades_aux cfg (rows.zip (maList cfg rows)) none (initState cfg rows)
        (fun p hp => nomatch hp) t ht with hin | ⟨hdate, _⟩
    · simp [initState] at hin
    · rw [zip_ma_map_fst] at hdate
      exact hdate

set_option allowUnsafeReducibility true in
attribute [local semireducible] Rat.mul Rat.add Rat.sub Rat.inv in
/-- Witness for C6: the first ledger entry of the cfgTrend run is dated on
a specification rebalance day. -/
theorem rebalance_days_and_trade_dates_witness :
    ((runBacktest cfgTrend rowsTrend).trades.getD 0 defaultTradeRecord).date
      ∈ specRebalanceDates rowsTrend :=
  (rebalance_days_and_trade_dates cfgTrend rowsTrend).2 _ (by decide)

/-- C2 (amended): every futures ledger record has a non-zero delta and its
action label follows lines 195-200: close when the target is 0, open-short
whenever the target is negative (also when a positive delta only partially
covers a short), open-long when the target is positive and the delta
positive, and reduce when the target is positive and the delta negative. -/
theorem futures_action_labels (cfg : Config) (rows : List DayRow) :
    ∀ t ∈ (runBacktest cfg rows).trades, t.kind = TradeKind.futures →
      t.qtyDelta ≠ 0 ∧
      (t.qtyAfter = 0 → t.action = TradeAction.close) ∧
      (t.qtyAfter < 0 → t.action = TradeAction.openShort) ∧
      (0 < t.qtyAfter → 0 < t.qtyDelta → t.action = TradeAction.openLong) ∧
      (0 < t.qtyAfter → t.qtyDelta < 0 → t.action = TradeAction.reduce) := by
  intro t ht hk
  simp only [runBacktest, List.mem_reverse] at ht
  rcases runDays_trades_aux cfg (rows.zip (maList cfg rows)) none (initState cfg rows)
      (fun p hp => nomatch hp) t ht with hin | ⟨_, hgood⟩
  · simp [initState] at hin
  · rcases hgood with hetf | ⟨_, hact, hdz⟩
    · rw [hk] at hetf
      exact absurd hetf (by simp)
    · obtain ⟨c1, c2, c3, c4⟩ := futuresAction_cases t.qtyAfter t.qtyDelta
      exact ⟨hdz, fun h => by rw [hact]; exact c1 h, fun h => by rw [hact]; exact c2 h,
        fun h1 h2 => by rw [hact]; exact c3 h1 h2,
        fun h1 h2 => by rw [hact]; exact c4 h1 h2⟩

set_option allowUnsafeReducibility true in
attribute [local semireducible] Rat.mul Rat.add Rat.sub Rat.inv in
/-- Witness for the amended C2: the first futures record of the cfgTrend
run has a negative target, and the theorem labels it open-short. -/
theorem futures_action_labels_witness :
    ((runBacktest cfgTrend rowsTrend).trades.getD 0 defaultTradeRecord).action
      = TradeAction.openShort :=
  (futures_action_labels cfgTrend rowsTrend
    ((runBacktest cfgTrend rowsTrend).trades.getD 0 defaultTradeRecord)
    (by decide) (by decide)).2.2.1 (by decide)

set_option allowUnsafeReducibility true in
attribute [local semireducible] Rat.mul Rat.add Rat.sub Rat.inv in
/-- Counterexample to C2 as stated: in the cfgTrend run the second futures
record is a positive-delta partial adjustment of a short position (from
-10 contracts to -2, delta +8, same sign, smaller magnitude), yet its
emitted action label is open-short, not the reduce label the claim
assigns to a positive-delta partial adjustment. -/
theorem futures_action_labels_cex :
    ((runBacktest cfgTrend rowsTrend).trades.getD 1 defaultTradeRecord).kind
        = TradeKind.futures ∧
    ((runBacktest cfgTrend rowsTrend).trades.getD 1 defaultTradeRecord).qtyDelta = 8 ∧
    ((runBacktest cfgTrend rowsTrend).trades.getD 1 defaultTradeRecord).qtyAfter = -2 ∧
    ((runBacktest cfgTrend rowsTrend).trades.getD 1 defaultTradeRecord).qtyAfter
        - ((runBacktest cfgTrend rowsTrend).trades.getD 1 defaultTradeRecord).qtyDelta
        = -10 ∧
    ((runBacktest cfgTrend rowsTrend).trades.getD 1 defaultTradeRecord).action
        = TradeAction.openShort ∧
    TradeAction.openShort ≠ TradeAction.reduce := by
  decide

set_option allowUnsafeReducibility true in
attribute [local semireducible] Rat.mul Rat.add Rat.sub Rat.inv in
/-- C9: the fallback allocation branch (lines 176-181, taken for any
allocation_mode outside dynamic/fixed/futures_only) is not equivalent to
dynamic mode: on the same two-day input with a -1 signal it opens a long
position of +10 contracts where dynamic mode opens a short of -10, because
the fallback branch omits the signal sign adjustment, so the two trade
ledgers differ.  The configurations cfgFallback and cfgDynamicRef differ
only in the allocation mode field. -/
theorem alloc_fallback_divergence :
    ((runBacktest cfgFallback rowsTwoMonths).trades.getD 0 defaultTradeRecord).qtyAfter
        = 10 ∧
    ((runBacktest cfgFallback rowsTwoMonths).trades.getD 0 defaultTradeRecord).action
        = TradeAction.openLong ∧
    ((runBacktest cfgDynamicRef rowsTwoMonths).trades.getD 0 defaultTradeRecord).qtyAfter
        = -10 ∧
    ((runBacktest cfgDynamicRef rowsTwoMonths).trades.getD 0 defaultTradeRecord).action
        = TradeAction.openShort ∧
    (runBacktest cfgFallback rowsTwoMonths).trades
      ≠ (runBacktest cfgDynamicRef rowsTwoMonths).trades := by
  decide

/-- C3: on a rebalance with a configured ETF, a known positive price and a
positive desired share delta, the executed buy is exactly the minimum of
the desired delta and floor(max(0, cash - required_margin) / (price *
(1 + fee_rate))); the margin reserve is never spent (cash stays at or
above required_margin whenever it started there), and a proportional fee
of fee_rate times the trade value is charged on the executed portion.
The shortfall produces a silent partial fill; no failure path exists. -/
theorem etf_buy_cash_constraint (d : TradeDate) (p tev rm : ℚ) (s : SimState)
    (hp : 0 < p) (hd : 0 < max 0 (pyInt (tev / p)) - s.etfShares) :
    (execEtf d p tev rm s).etfShares
        = s.etfShares
          + min (max 0 (pyInt (tev / p)) - s.etfShares)
              ⌊max 0 (s.cash - rm) / (p * (1 + costRate))⌋ ∧
    (execEtf d p tev rm s).cash
        = s.cash
          - (((min (max 0 (pyInt (tev / p)) - s.etfShares)
                ⌊max 0 (s.cash - rm) / (p * (1 + costRate))⌋ : ℤ) : ℚ) * p
             + costRate
               * (((min (max 0 (pyInt (tev / p)) - s.etfShares)
                    ⌊max 0 (s.cash - rm) / (p * (1 + costRate))⌋ : ℤ) : ℚ) * p)) ∧
    (rm ≤ s.cash → rm ≤ (execEtf d p tev rm s).cash) := by
  have hcr : (0:ℚ) < 1 + costRate := by norm_num [costRate]
  have hden : 0 < p * (1 + costRate) := mul_pos hp hcr
  have hqnn : 0 ≤ max 0 (s.cash - rm) / (p * (1 + costRate)) :=
    div_nonneg (le_max_left 0 _) hden.le
  have hpyeq : pyInt (max 0 (s.cash - rm) / (p * (1 + costRate)))
      = ⌊max 0 (s.cash - rm) / (p * (1 + costRate))⌋ := by
    unfold pyInt
    rw [if_pos hqnn]
  have hBnn : 0 ≤ ⌊max 0 (s.cash - rm) / (p * (1 + costRate))⌋ :=
    Int.floor_nonneg.mpr hqnn
  unfold execEtf execEtfBuy
  rw [if_pos hd, hpyeq]
  by_cases hact : 0 < min (max 0 (pyInt (tev / p)) - s.etfShares)
      ⌊max 0 (s.cash - rm) / (p * (1 + costRate))⌋
  · rw [if_pos hact]
    refine ⟨rfl, ?_, ?_⟩
    · dsimp only
      ring
    · intro hrm
      dsimp only
      have h1 : ((min (max 0 (pyInt (tev / p)) - s.etfShares)
            ⌊max 0 (s.cash - rm) / (p * (1 + costRate))⌋ : ℤ) : ℚ)
          ≤ max 0 (s.cash - rm) / (p * (1 + costRate)) :=
        le_trans (by exact_mod_cast min_le_right _ _) (Int.floor_le _)
      have h2 := (le_div_iff₀ hden).mp h1
      have h3 : max 0 (s.cash - rm) = s.cash - rm := max_eq_right (by linarith)
      nlinarith [h2, h3]
  · rw [if_neg hact]
    have hmin0 : min (max 0 (pyInt (tev / p)) - s.etfShares)
        ⌊max 0 (s.cash - rm) / (p * (1 + costRate))⌋ = 0 :=
      le_antisymm (not_lt.mp hact) (le_min (le_of_lt hd) hBnn)
    refine ⟨?_, ?_, fun hrm => hrm⟩
    · rw [hmin0, add_zero]
    · rw [hmin0]
      simp

set_option allowUnsafeReducibility true in
attribute [local semireducible] Rat.mul Rat.add Rat.sub Rat.inv in
/-- Witness for C3: buying from 1000 cash with a 30 margin reserve at
price 10 towards a 990 target executes 96 shares, not the desired 99. -/
theorem etf_buy_cash_constraint_witness :
    (0:ℚ) < 10 ∧
    ((execEtf { month := 1, serial := 0 } 10 990 30 stateBuy).etfShares
        = stateBuy.etfShares
          + min (max 0 (pyInt (990 / 10)) - stateBuy.etfShares)
              ⌊max 0 (stateBuy.cash - 30) / (10 * (1 + costRate))⌋ ∧
     (execEtf { month := 1, serial := 0 } 10 990 30 stateBuy).cash
        = stateBuy.cash
          - (((min (max 0 (pyInt (990 / 10)) - stateBuy.etfShares)
                ⌊max 0 (stateBuy.cash - 30) / (10 * (1 + costRate))⌋ : ℤ) : ℚ) * 10
             + costRate
               * (((min (max 0 (pyInt (990 / 10)) - stateBuy.etfShares)
                    ⌊max 0 (stateBuy.cash - 30) / (10 * (1 + costRate))⌋ : ℤ) : ℚ) * 10)) ∧
     (30 ≤ stateBuy.cash → 30 ≤ (execEtf { month := 1, serial := 0 } 10 990 30 stateBuy).cash)) :=
  ⟨by norm_num,
   etf_buy_cash_constraint { month := 1, serial := 0 } 10 990 30 stateBuy
     (by norm_num) (by decide)⟩

/-- C4 (amended): under allocation mode fixed, on every rebalance the
target ETF value is exactly total_equity times etf_pct, independent of the
signal, provided the strategy is not etf_only and an ETF is configured;
with strategy etf_only the override of lines 127-130 targets the whole
equity instead, and with no ETF configured the target is 0. -/
theorem fixed_mode_etf_target (cfg : Config) (sg : ℤ) (te pt : ℚ)
    (h1 : cfg.allocationMode = AllocMode.fixed)
    (h2 : cfg.strategy ≠ Strategy.etfOnly)
    (h3 : cfg.etfCode ≠ "none") :
    (computeTargets cfg sg te pt).etfValue = te * cfg.etfPct := by
  unfold computeTargets
  rw [if_neg h2, h1]
  dsimp only
  split
  · dsimp only
  · dsimp only

/-- Witness for the amended C4: in fixed mode with a -1 signal the target
ETF value is total_equity times etf_pct. -/
theorem fixed_mode_etf_target_witness :
    (computeTargets cfgFixedTrend (-1) 1000 100).etfValue = 1000 * cfgFixedTrend.etfPct :=
  fixed_mode_etf_target cfgFixedTrend (-1) 1000 100 rfl (by decide) (by decide)

set_option allowUnsafeReducibility true in
attribute [local semireducible] Rat.mul Rat.add Rat.sub Rat.inv in
/-- Counterexample to C4 as stated: under allocation mode fixed with
etf_pct = 2/5 and total equity 1000, the computed target ETF value is the
whole 1000 when the strategy is etf_only, and 0 when no ETF is configured
- in both cases not 1000 times etf_pct = 400. -/
theorem fixed_mode_etf_target_cex :
    (computeTargets cfgFixedEtfOnly 0 1000 100).etfValue = 1000 ∧
    (1000 : ℚ) ≠ 1000 * cfgFixedEtfOnly.etfPct ∧
    (computeTargets cfgFixedNoEtf 1 1000 100).etfValue = 0 ∧
    (0 : ℚ) ≠ 1000 * cfgFixedNoEtf.etfPct := by
  refine ⟨by decide, by decide, by decide, by decide⟩

/-- C7: the end-of-run statistics satisfy total_return =
final_equity/initial_capital - 1, years = max(elapsed_days/365.25, 0.01)
(365.25 = 1461/4, 0.01 = 1/100), cagr = (final/initial)^(1/years) - 1, and
every run spanning at most 3 calendar days (elapsed/365.25 below 0.01)
gets years = 0.01 exactly. -/
theorem end_of_run_stats (cfg : Config) (rows : List DayRow)
    (hi : cfg.initialCapital ≠ 0) :
    (runBacktest cfg rows).stats.totalReturn
        = (runBacktest cfg rows).stats.finalEquity
          / (runBacktest cfg rows).stats.initialCapital - 1 ∧
    (runBacktest cfg rows).stats.years
        = max ((elapsedDays rows : ℚ) / (1461/4)) (1/100) ∧
    cagr (runBacktest cfg rows).stats
        = (((runBacktest cfg rows).stats.finalEquity : ℝ)
              / ((runBacktest cfg rows).stats.initialCapital : ℝ))
          ^ ((1 : ℝ) / ((runBacktest cfg rows).stats.years : ℝ)) - 1 ∧
    (elapsedDays rows ≤ 3 → (runBacktest cfg rows).stats.years = 1/100) := by
  have hic : (runBacktest cfg rows).stats.initialCapital = cfg.initialCapital := rfl
  refine ⟨?_, rfl, rfl, ?_⟩
  · show ((runBacktest cfg rows).stats.finalEquity - cfg.initialCapital) / cfg.initialCapital
      = (runBacktest cfg rows).stats.finalEquity / (runBacktest cfg rows).stats.initialCapital - 1
    rw [hic, sub_div, div_self hi]
  · intro h3
    show max ((elapsedDays rows : ℚ) / (1461/4)) (1/100) = 1/100
    apply max_eq_right
    have h4 : (elapsedDays rows : ℚ) ≤ 3 := by exact_mod_cast h3
    rw [div_le_iff₀ (by norm_num : (0:ℚ) < 1461/4)]
    linarith

set_option allowUnsafeReducibility true in
attribute [local semireducible] Rat.mul Rat.add Rat.sub Rat.inv in
/-- Witness for C7 at a one-day run (elapsed days 0, so the years floor
0.01 applies). -/
theorem end_of_run_stats_witness :
    cfgTrend.initialCapital ≠ 0 ∧
    ((runBacktest cfgTrend rowsOneDay).stats.totalReturn
        = (runBacktest cfgTrend rowsOneDay).stats.finalEquity
          / (runBacktest cfgTrend rowsOneDay).stats.initialCapital - 1 ∧
     (runBacktest cfgTrend rowsOneDay).stats.years
        = max ((elapsedDays rowsOneDay : ℚ) / (1461/4)) (1/100) ∧
     cagr (runBacktest cfgTrend rowsOneDay).stats
        = (((runBacktest cfgTrend rowsOneDay).stats.finalEquity : ℝ)
              / ((runBacktest cfgTrend rowsOneDay).stats.initialCapital : ℝ))
          ^ ((1 : ℝ) / ((runBacktest cfgTrend rowsOneDay).stats.years : ℝ)) - 1 ∧
     (elapsedDays rowsOneDay ≤ 3 → (runBacktest cfgTrend rowsOneDay).stats.years = 1/100)) :=
  ⟨by decide, end_of_run_stats cfgTrend rowsOneDay (by decide)⟩

/-- C8: the daily accrual adds to cash exactly the futures mark-to-market
plus the backwardation yield plus the dividend credit, and the
backwardation yield equals contracts times (previous index price times
annual_yield/252) times point_value when the position is long, and is
exactly 0 when the contract count is zero or negative. -/
theorem backwardation_accrual (cfg : Config) (pt : ℚ) (row : DayRow) (s : SimState) :
    (accruePnl cfg pt row s).cash
        = s.cash + (s.contracts : ℚ) * (row.taiex - pt) * cfg.pointValue
          + yieldPnl s.contracts pt (cfg.dividendYield / 252) cfg.pointValue
          + dividendCredit cfg row.date s ∧
    (0 < s.contracts →
      yieldPnl s.contracts pt (cfg.dividendYield / 252) cfg.pointValue
        = (s.contracts : ℚ) * (pt * (cfg.dividendYield / 252)) * cfg.pointValue) ∧
    (s.contracts ≤ 0 →
      yieldPnl s.contracts pt (cfg.dividendYield / 252) cfg.pointValue = 0) := by
  refine ⟨rfl, fun h => ?_, fun h => ?_⟩
  · unfold yieldPnl
    rw [if_pos h]
  · unfold yieldPnl
    rw [if_neg (not_lt.mpr h)]

/-- Witness for C8: a two-contract long accrues the yield formula. -/
theorem backwardation_accrual_witness :
    0 < stateLong.contracts ∧
    yieldPnl stateLong.contracts 100 (cfgYield.dividendYield / 252) cfgYield.pointValue
      = (stateLong.contracts : ℚ) * (100 * (cfgYield.dividendYield / 252)) * cfgYield.pointValue :=
  ⟨by decide,
   (backwardation_accrual cfgYield 100
      { date := { month := 1, serial := 1 }, taiex := 105, etf := none } stateLong).2.1
     (by decide)⟩

/-- C10: the table returned by run_backtest is the input table with the
derived MA and Equity columns added: projecting the added columns away
gives back exactly the caller's rows (so the input data is never altered),
the MA column is the derived moving-average series, and the Equity column
has one entry per input row. -/
theorem input_table_preserved (cfg : Config) (rows : List DayRow) :
    (runBacktest cfg rows).table.map Prod.fst = rows ∧
    (runBacktest cfg rows).table.map (fun x => x.2.1) = maList cfg rows ∧
    (equitySeries (runBacktest cfg rows)).length = rows.length := by
  have hma : (maList cfg rows).length = rows.length := by simp [maList]
  have heq : (runDays cfg none (rows.zip (maList cfg rows))
      (initState cfg rows)).equityArr.length = rows.length := by
    rw [runDays_equity_length]
    simp [initState, List.length_zip, hma]
  have hinner : ((maList cfg rows).zip
      (runDays cfg none (rows.zip (maList cfg rows))
        (initState cfg rows)).equityArr.reverse).length = rows.length := by
    simp [List.length_zip, hma, heq]
  refine ⟨?_, ?_, ?_⟩
  · simp only [runBacktest]
    exact List.map_fst_zip _ _ (by rw [hinner])
  · simp only [runBacktest]
    have hfun : (fun x : DayRow × Option ℚ × ℚ => x.2.1) =
        (Prod.fst ∘ Prod.snd) := rfl
    rw [hfun, ← List.map_map]
    rw [List.map_snd_zip _ _ (by rw [hinner])]
    exact List.map_fst_zip _ _ (by rw [hma, List.length_reverse, heq])
  · simp only [equitySeries, runBacktest, List.length_map, List.length_zip,
      List.length_reverse, hma, heq]
    omega
